import Mathlib

/-
  Verification development for the Pomodoro timer state machine of the
  socialstudy repository.  The machine lives in the Timer page component
  (src/unnamed/part_002, lines 249 to 656).  It is a React function
  component; its state is held in useState hooks and one ref:

    phase : idle | focus | short | long          (line 257)
    remaining : seconds left in the phase        (line 258)
    intervalCount : completed focus phases       (line 259)
    running : whether the tick interval runs     (line 260)
    focusStartRef : start time of the focus run  (line 267)
    history : recent sessions, capped at 10      (lines 263, 389, 419)

  Mutations, all serialized on the single UI thread:
    toggle          start or pause, lines 463 to 479
    reset           lines 481 to 487
    tick            the interval body, lines 396 to 408
    handlePhaseEnd  phase expiry and the skip command, lines 411 to 448
    startPhase      lines 451 to 460

  Closure semantics matter and are modelled explicitly.  handlePhaseEnd
  ends with a one second setTimeout (lines 445 to 447) whose callback
  reads the identifiers phase and startPhase of the render in which
  handlePhaseEnd was created, that is, the phase from BEFORE the
  transition it just performed.  The model therefore keeps a queue of
  scheduled callbacks, each storing the captured phase, and a fire step
  that pops and runs the oldest one.  Timestamps are seconds since epoch
  as natural numbers; each external event carries the wall clock time at
  which it happens and whether an authenticated user is available.
-/

namespace SocialStudy

/-- Timer phase, source line 257. -/
inductive Phase where
  | idle
  | focus
  | short
  | long
deriving DecidableEq, Repr

/-- Session configuration, source lines 251 to 254.  Durations are in
minutes, as in the source, and multiplied by 60 wherever the source does
so. -/
structure Config where
  workMin : Nat
  shortMin : Nat
  longMin : Nat
  intervalsBeforeLong : Nat
deriving DecidableEq, Repr

/-- A completed focus record as inserted into the study_sessions table,
source line 416: a start and an end timestamp. -/
structure FocusRecord where
  startAt : Nat
  endAt : Nat
deriving DecidableEq, Repr

/-- An entry of the in-memory history list, source line 247: the end
time may be absent for rows loaded from the database. -/
structure HistoryEntry where
  startAt : Nat
  endAt : Option Nat
deriving DecidableEq, Repr

/-- The full state of the Timer component that the claims are about.
records collects every row inserted into study_sessions during the run;
history is the in-memory list shown on the page, capped at ten entries;
pending is the queue of scheduled auto-resume callbacks of the
setTimeout at source lines 445 to 447, each storing the phase value
captured by its closure. -/
structure TimerState where
  phase : Phase
  remaining : Nat
  intervalCount : Nat
  running : Bool
  focusStart : Option Nat
  records : List FocusRecord
  history : List HistoryEntry
  pending : List Phase
deriving DecidableEq, Repr

/-- Configured duration in seconds of a phase: the values assigned to
remaining by the source (lines 432, 435, 439, 442, 454, 472) and used by
the progress ring at line 599.  Idle has duration zero. -/
def phaseDuration (cfg : Config) : Phase → Nat
  | Phase.idle => 0
  | Phase.focus => cfg.workMin * 60
  | Phase.short => cfg.shortMin * 60
  | Phase.long => cfg.longMin * 60

/-- handlePhaseEnd, source lines 411 to 448, invoked when remaining
reaches zero and by the skip command.  The argument u says whether
getUserOrWarn returns a user; now is the wall clock time.  Steps, in
source order: if the phase is focus and focusStartRef is set, insert a
record and prepend it to history capped at ten (only with a user) and
clear focusStartRef (lines 413 to 422); set running to false (line 423);
compute the next phase and its duration from the captured phase and
intervalCount (lines 427 to 443); finally schedule the auto-resume
callback, which captures the pre-transition phase (lines 445 to 447). -/
def handlePhaseEnd (cfg : Config) (u : Bool) (now : Nat) (s : TimerState) : TimerState :=
  let s1 :=
    match s.phase, s.focusStart with
    | Phase.focus, some st =>
      if u then
        { s with records := s.records ++ [({ startAt := st, endAt := now } : FocusRecord)],
                 history := (({ startAt := st, endAt := some now } : HistoryEntry) :: s.history).take 10,
                 focusStart := none }
      else { s with focusStart := none }
    | _, _ => s
  let s2 := { s1 with running := false }
  let s3 :=
    match s.phase with
    | Phase.focus =>
      if (s.intervalCount + 1) % cfg.intervalsBeforeLong = 0 then
        { s2 with intervalCount := s.intervalCount + 1, phase := Phase.long,
                  remaining := cfg.longMin * 60 }
      else
        { s2 with intervalCount := s.intervalCount + 1, phase := Phase.short,
                  remaining := cfg.shortMin * 60 }
    | Phase.short => { s2 with phase := Phase.focus, remaining := cfg.workMin * 60 }
    | Phase.long => { s2 with phase := Phase.focus, remaining := cfg.workMin * 60 }
    | Phase.idle => { s2 with phase := Phase.idle, remaining := 0 }
  { s3 with pending := s3.pending ++ [s.phase] }

/-- startPhase, source lines 451 to 460, as executed by the auto-resume
callback.  The parameter p is the phase captured by the closure of the
render that defined this startPhase instance; it is the value the
function body reads, while the updates apply to the current state s. -/
def startPhase (cfg : Config) (p : Phase) (now : Nat) (s : TimerState) : TimerState :=
  match p with
  | Phase.idle =>
    { s with phase := Phase.focus, remaining := cfg.workMin * 60,
             focusStart := some now, running := true }
  | Phase.focus => { s with focusStart := some now, running := true }
  | Phase.short => { s with running := true }
  | Phase.long => { s with running := true }

/-- The auto-resume callback firing, source lines 445 to 447: pop the
oldest scheduled callback; if its captured phase is not idle, run
startPhase with that captured phase. -/
def fire (cfg : Config) (now : Nat) (s : TimerState) : TimerState :=
  match s.pending with
  | [] => s
  | p :: rest =>
    let s1 := { s with pending := rest }
    if p = Phase.idle then s1 else startPhase cfg p now s1

/-- toggle, source lines 463 to 479: pause when running, otherwise start
a new cycle from idle or resume, resetting focusStartRef when resuming
into focus. -/
def toggle (cfg : Config) (now : Nat) (s : TimerState) : TimerState :=
  if s.running then { s with running := false }
  else
    match s.phase with
    | Phase.idle =>
      { s with intervalCount := 0, phase := Phase.focus,
               remaining := cfg.workMin * 60, focusStart := some now,
               running := true }
    | Phase.focus => { s with focusStart := some now, running := true }
    | Phase.short => { s with running := true }
    | Phase.long => { s with running := true }

/-- reset, source lines 481 to 487.  Scheduled timeouts are not
cancelled, so pending is untouched. -/
def reset (s : TimerState) : TimerState :=
  { s with running := false, phase := Phase.idle, remaining := 0,
           intervalCount := 0, focusStart := none }

/-- One firing of the one second interval, source lines 396 to 408.  The
interval only exists while running; when the previous remaining is at
most one the phase ends, otherwise remaining decreases by one.  The
transient zero written by the updater is immediately overwritten by the
assignment to remaining inside handlePhaseEnd, which every branch
performs, so the net effect at phase end is handlePhaseEnd itself. -/
def tick (cfg : Config) (u : Bool) (now : Nat) (s : TimerState) : TimerState :=
  if s.running then
    if s.remaining ≤ 1 then handlePhaseEnd cfg u now s
    else { s with remaining := s.remaining - 1 }
  else s

/-- The skip command: the N key handler at source line 319 and the Next
button at line 613 call handlePhaseEnd only while running. -/
def skipCmd (cfg : Config) (u : Bool) (now : Nat) (s : TimerState) : TimerState :=
  if s.running then handlePhaseEnd cfg u now s else s

/-- The pause command of the specification API: the running branch of
toggle, source line 466, which only sets running to false. -/
def pauseCmd (s : TimerState) : TimerState :=
  { s with running := false }

/-- The start command of the specification API: the not-running branch
of toggle, source lines 468 to 477, guarded to do nothing while already
running (the source exposes start and pause through the single toggle
entry point, so a start command can only ever take effect while not
running). -/
def startCmd (cfg : Config) (now : Nat) (s : TimerState) : TimerState :=
  if s.running then s
  else
    match s.phase with
    | Phase.idle =>
      { s with intervalCount := 0, phase := Phase.focus,
               remaining := cfg.workMin * 60, focusStart := some now,
               running := true }
    | Phase.focus => { s with focusStart := some now, running := true }
    | Phase.short => { s with running := true }
    | Phase.long => { s with running := true }

/-- External events that can reach the component. -/
inductive Op where
  | toggle
  | reset
  | tick
  | skipCmd
  | fire
deriving DecidableEq, Repr

/-- An event: which operation, at what wall clock time, and whether an
authenticated user is available at that moment. -/
structure Ev where
  op : Op
  now : Nat
  user : Bool
deriving DecidableEq, Repr

/-- Dispatch one event to the corresponding source operation. -/
def step (cfg : Config) (e : Ev) (s : TimerState) : TimerState :=
  match e.op with
  | Op.toggle => toggle cfg e.now s
  | Op.reset => reset s
  | Op.tick => tick cfg e.user e.now s
  | Op.skipCmd => skipCmd cfg e.user e.now s
  | Op.fire => fire cfg e.now s

/-- The component state right after mount: idle, nothing running, and
the history loaded with at most ten rows (the limit 10 query at source
line 389, modelled by take 10). -/
def initialState (h0 : List HistoryEntry) : TimerState :=
  { phase := Phase.idle, remaining := 0, intervalCount := 0,
    running := false, focusStart := none, records := [],
    history := h0.take 10, pending := [] }

/-- Run a sequence of events from the initial state. -/
def run (cfg : Config) (h0 : List HistoryEntry) (evs : List Ev) : TimerState :=
  evs.foldl (fun s e => step cfg e s) (initialState h0)

/-- n firings of the interval in a row, all at the same wall clock time
argument (the time is only read when the phase ends). -/
def ticks (cfg : Config) (u : Bool) (now : Nat) : Nat → TimerState → TimerState
  | 0, s => s
  | n + 1, s => ticks cfg u now n (tick cfg u now s)

/-- todayCount, source lines 501 to 509: count the history entries whose
end time has the same calendar day as now.  The source compares the
leading date part of the ISO strings produced by toISOString, which is
the UTC calendar date, so two timestamps compare equal exactly when
their day numbers t / 86400 agree. -/
def todayCount (now : Nat) (h : List HistoryEntry) : Nat :=
  (h.filter (fun r =>
    match r.endAt with
    | none => false
    | some e => e / 86400 == now / 86400)).length

/-- Calendar day of a timestamp in a time zone with the given offset in
seconds east of UTC.  Written from the claim wording about the user
local time zone, to compare against the todayCount of the source. -/
def localDay (off : Int) (t : Nat) : Int :=
  ((t : Int) + off) / 86400

/-- Count of history entries whose end time falls on the same calendar
day as now in the local time zone with offset off.  Modelled from the
claim wording, not from the source; it is the comparison point for the
todayCount definition above. -/
def todayCountLocal (off : Int) (now : Nat) (h : List HistoryEntry) : Nat :=
  (h.filter (fun r =>
    match r.endAt with
    | none => false
    | some e => localDay off e == localDay off now)).length

/-- Count of inserted records whose end time falls on the UTC calendar
day of now: the true number of focus sessions completed today among all
records emitted during the run, used to compare against the capped
in-memory count. -/
def completedTodayAll (now : Nat) (rs : List FocusRecord) : Nat :=
  (rs.filter (fun r => r.endAt / 86400 == now / 86400)).length

/-- The fields of the state that make up the phase transition itself:
phase, remaining, intervalCount, running, focusStart and the scheduled
callbacks; everything except the persistence side effects. -/
def core (s : TimerState) : Phase × Nat × Nat × Bool × Option Nat × List Phase :=
  (s.phase, s.remaining, s.intervalCount, s.running, s.focusStart, s.pending)

/-- Next phase computed by handlePhaseEnd at source lines 427 to 443,
as a function of the captured phase and interval count. -/
def nextPhase (cfg : Config) (p : Phase) (c : Nat) : Phase :=
  match p with
  | Phase.focus =>
    if (c + 1) % cfg.intervalsBeforeLong = 0 then Phase.long else Phase.short
  | Phase.short => Phase.focus
  | Phase.long => Phase.focus
  | Phase.idle => Phase.idle

/-- Invariant carried through every reachable state: the interval count
is zero while idle, remaining never exceeds the configured duration of
the current phase, and the history list never exceeds ten entries. -/
def Inv (cfg : Config) (s : TimerState) : Prop :=
  (s.phase = Phase.idle → s.intervalCount = 0) ∧
  s.remaining ≤ phaseDuration cfg s.phase ∧
  s.history.length ≤ 10

/-- The state after the phase cycle has completed k focus phases when it
is driven naturally: k is the interval count, the machine sits at the
start of the break chosen by k mod intervalsBeforeLong, paused for the
one second auto-resume delay, with that callback still queued. -/
def breakState (cfg : Config) (k : Nat) : TimerState :=
  { phase := if k % cfg.intervalsBeforeLong = 0 then Phase.long else Phase.short,
    remaining := if k % cfg.intervalsBeforeLong = 0 then cfg.longMin * 60
                 else cfg.shortMin * 60,
    intervalCount := k, running := false, focusStart := none,
    records := [], history := [], pending := [Phase.focus] }

/-- From the state just after a focus completion: let the auto-resume
fire, run the break down to zero, let the auto-resume fire again, and
run the next focus phase down to zero. -/
def nextCompletion (cfg : Config) (s : TimerState) : TimerState :=
  let s1 := fire cfg 0 s
  let s2 := ticks cfg false 0 s1.remaining s1
  let s3 := fire cfg 0 s2
  ticks cfg false 0 s3.remaining s3

/-- The state after the k plus first focus completion of the natural
run: press start on the freshly mounted component, let every phase run
down to zero by ticks, with the auto-resume callback firing between
phases. -/
def completionState (cfg : Config) : Nat → TimerState
  | 0 =>
    let s0 := toggle cfg 0 (initialState [])
    ticks cfg false 0 s0.remaining s0
  | k + 1 => nextCompletion cfg (completionState cfg k)

/-- Concrete configuration used by the evaluation theorems: one minute
for every duration and four intervals before a long break. -/
def cfgA : Config :=
  { workMin := 1, shortMin := 1, longMin := 1, intervalsBeforeLong := 4 }

/-- Concrete configuration used by the phase cycle witness: one minute
for every duration and two intervals before a long break. -/
def cfgB : Config :=
  { workMin := 1, shortMin := 1, longMin := 1, intervalsBeforeLong := 2 }

/-- A tick event at time t with an authenticated user. -/
def evTick (t : Nat) : Ev :=
  { op := Op.tick, now := t, user := true }

/-- Natural timed run of one full focus phase, the short break, and a
second full focus phase under cfgA: start at time 0, sixty ticks ending
at 60, auto-resume at 61, sixty break ticks ending at 121, auto-resume
at 122, sixty ticks ending at 182. -/
def traceTwoFocus : List Ev :=
  { op := Op.toggle, now := 0, user := true } ::
    (List.replicate 60 (evTick 60) ++
      ({ op := Op.fire, now := 61, user := true } ::
        (List.replicate 60 (evTick 121) ++
          ({ op := Op.fire, now := 122, user := true } ::
            List.replicate 60 (evTick 182)))))

/-- Natural timed run of one full focus phase followed by the
auto-resume firing: start at 0, sixty ticks ending at 60, auto-resume at
61. -/
def traceOneFocus : List Ev :=
  { op := Op.toggle, now := 0, user := true } ::
    (List.replicate 60 (evTick 60) ++ [{ op := Op.fire, now := 61, user := true }])

/-- Eleven focus completions in quick succession via the skip command:
after start, each block of skip, fire, skip, fire completes one focus
phase and the following break; a final skip completes the eleventh
focus phase.  All events happen on calendar day zero. -/
def traceElevenFocus : List Ev :=
  { op := Op.toggle, now := 0, user := true } ::
    ((List.replicate 10
        [({ op := Op.skipCmd, now := 1, user := true } : Ev),
         { op := Op.fire, now := 1, user := true },
         { op := Op.skipCmd, now := 1, user := true },
         { op := Op.fire, now := 1, user := true }]).flatten ++
      [{ op := Op.skipCmd, now := 1, user := true }])

end SocialStudy


namespace SocialStudy

lemma handlePhaseEnd_running (cfg : Config) (u : Bool) (now : Nat) (s : TimerState) :
    (handlePhaseEnd cfg u now s).running = false := by
  cases s with
  | mk ph rem cnt run fs recs hist pend =>
    cases ph <;> cases fs <;> cases u <;> simp [handlePhaseEnd] <;> split <;> rfl

lemma handlePhaseEnd_pending (cfg : Config) (u : Bool) (now : Nat) (s : TimerState) :
    (handlePhaseEnd cfg u now s).pending = s.pending ++ [s.phase] := by
  cases s with
  | mk ph rem cnt run fs recs hist pend =>
    cases ph <;> cases fs <;> cases u <;> simp [handlePhaseEnd] <;> split <;> rfl

lemma handlePhaseEnd_intervalCount (cfg : Config) (u : Bool) (now : Nat) (s : TimerState) :
    (handlePhaseEnd cfg u now s).intervalCount =
      if s.phase = Phase.focus then s.intervalCount + 1 else s.intervalCount := by
  cases s with
  | mk ph rem cnt run fs recs hist pend =>
    cases ph <;> cases fs <;> cases u <;> simp [handlePhaseEnd] <;> split <;> rfl

lemma handlePhaseEnd_phase (cfg : Config) (u : Bool) (now : Nat) (s : TimerState) :
    (handlePhaseEnd cfg u now s).phase = nextPhase cfg s.phase s.intervalCount := by
  cases s with
  | mk ph rem cnt run fs recs hist pend =>
    cases ph <;> cases fs <;> cases u <;> simp [handlePhaseEnd, nextPhase] <;> split <;> rfl

lemma handlePhaseEnd_remaining (cfg : Config) (u : Bool) (now : Nat) (s : TimerState) :
    (handlePhaseEnd cfg u now s).remaining =
      phaseDuration cfg (nextPhase cfg s.phase s.intervalCount) := by
  cases s with
  | mk ph rem cnt run fs recs hist pend =>
    cases ph <;> cases fs <;> cases u <;>
      simp [handlePhaseEnd, nextPhase, phaseDuration] <;> split <;> simp [phaseDuration]

lemma handlePhaseEnd_focusStart (cfg : Config) (u : Bool) (now : Nat) (s : TimerState) :
    (handlePhaseEnd cfg u now s).focusStart =
      if s.phase = Phase.focus then none else s.focusStart := by
  cases s with
  | mk ph rem cnt run fs recs hist pend =>
    cases ph <;> cases fs <;> cases u <;> simp [handlePhaseEnd] <;> split <;> rfl

lemma handlePhaseEnd_history_le (cfg : Config) (u : Bool) (now : Nat) (s : TimerState)
    (h : s.history.length ≤ 10) : (handlePhaseEnd cfg u now s).history.length ≤ 10 := by
  cases s with
  | mk ph rem cnt run fs recs hist pend =>
    cases ph <;> cases fs <;> cases u <;>
      simp_all [handlePhaseEnd] <;> split <;> simp_all [List.length_take]

lemma handlePhaseEnd_remaining_irrel (cfg : Config) (u : Bool) (now : Nat)
    (s : TimerState) (x : Nat) :
    handlePhaseEnd cfg u now { s with remaining := x } = handlePhaseEnd cfg u now s := by
  cases s with
  | mk ph rem cnt run fs recs hist pend =>
    cases ph <;> cases fs <;> cases u <;> simp [handlePhaseEnd]

end SocialStudy

namespace SocialStudy

lemma nextPhase_eq_idle (cfg : Config) (p : Phase) (c : Nat)
    (h : nextPhase cfg p c = Phase.idle) : p = Phase.idle := by
  cases p <;> simp [nextPhase] at h <;> try rfl
  · split at h <;> simp at h

lemma fire_fields (cfg : Config) (now : Nat) (s : TimerState) :
    (fire cfg now s).phase = s.phase ∧ (fire cfg now s).remaining = s.remaining ∧
    (fire cfg now s).intervalCount = s.intervalCount ∧
    (fire cfg now s).history = s.history ∧ (fire cfg now s).records = s.records := by
  unfold fire
  split
  · exact ⟨rfl, rfl, rfl, rfl, rfl⟩
  · split
    · exact ⟨rfl, rfl, rfl, rfl, rfl⟩
    · next hne =>
      unfold startPhase
      split
      · exact absurd rfl hne
      · exact ⟨rfl, rfl, rfl, rfl, rfl⟩
      · exact ⟨rfl, rfl, rfl, rfl, rfl⟩
      · exact ⟨rfl, rfl, rfl, rfl, rfl⟩

lemma inv_initialState (cfg : Config) (h0 : List HistoryEntry) :
    Inv cfg (initialState h0) := by
  refine ⟨fun _ => rfl, Nat.le_refl 0, ?_⟩
  simp [initialState, List.length_take]

lemma inv_handlePhaseEnd (cfg : Config) (u : Bool) (now : Nat) (s : TimerState)
    (h : Inv cfg s) : Inv cfg (handlePhaseEnd cfg u now s) := by
  obtain ⟨h1, h2, h3⟩ := h
  refine ⟨?_, ?_, handlePhaseEnd_history_le cfg u now s h3⟩
  · intro hidle
    rw [handlePhaseEnd_phase] at hidle
    have hp := nextPhase_eq_idle cfg s.phase s.intervalCount hidle
    rw [handlePhaseEnd_intervalCount]
    simp [hp, h1 hp]
  · rw [handlePhaseEnd_remaining, handlePhaseEnd_phase]

lemma inv_toggle (cfg : Config) (now : Nat) (s : TimerState)
    (h : Inv cfg s) : Inv cfg (toggle cfg now s) := by
  obtain ⟨h1, h2, h3⟩ := h
  unfold toggle
  split
  · exact ⟨h1, h2, h3⟩
  · split
    · exact ⟨by simp, by simp [phaseDuration], h3⟩
    · exact ⟨h1, h2, h3⟩
    · exact ⟨h1, h2, h3⟩
    · exact ⟨h1, h2, h3⟩

lemma inv_reset (cfg : Config) (s : TimerState) (_ : Inv cfg s) :
    Inv cfg (reset s) :=
  ⟨fun _ => rfl, Nat.le_refl 0, (‹Inv cfg s›).2.2⟩

lemma inv_tick (cfg : Config) (u : Bool) (now : Nat) (s : TimerState)
    (h : Inv cfg s) : Inv cfg (tick cfg u now s) := by
  unfold tick
  split
  · split
    · exact inv_handlePhaseEnd cfg u now s h
    · exact ⟨h.1, le_trans (Nat.sub_le _ _) h.2.1, h.2.2⟩
  · exact h

lemma inv_skipCmd (cfg : Config) (u : Bool) (now : Nat) (s : TimerState)
    (h : Inv cfg s) : Inv cfg (skipCmd cfg u now s) := by
  unfold skipCmd
  split
  · exact inv_handlePhaseEnd cfg u now s h
  · exact h

lemma inv_fire (cfg : Config) (now : Nat) (s : TimerState)
    (h : Inv cfg s) : Inv cfg (fire cfg now s) := by
  obtain ⟨h1, h2, h3⟩ := h
  unfold fire
  split
  · exact ⟨h1, h2, h3⟩
  · split
    · exact ⟨h1, h2, h3⟩
    · unfold startPhase
      split
      · exact ⟨by simp, by simp [phaseDuration], h3⟩
      · exact ⟨h1, h2, h3⟩
      · exact ⟨h1, h2, h3⟩
      · exact ⟨h1, h2, h3⟩

lemma inv_step (cfg : Config) (e : Ev) (s : TimerState)
    (h : Inv cfg s) : Inv cfg (step cfg e s) := by
  cases e with
  | mk op now user =>
    cases op with
    | toggle => exact inv_toggle cfg now s h
    | reset => exact inv_reset cfg s h
    | tick => exact inv_tick cfg user now s h
    | skipCmd => exact inv_skipCmd cfg user now s h
    | fire => exact inv_fire cfg now s h

lemma inv_foldl (cfg : Config) (evs : List Ev) (s : TimerState)
    (h : Inv cfg s) : Inv cfg (evs.foldl (fun s e => step cfg e s) s) := by
  induction evs generalizing s with
  | nil => exact h
  | cons e rest ih => exact ih _ (inv_step cfg e s h)

lemma inv_run (cfg : Config) (h0 : List HistoryEntry) (evs : List Ev) :
    Inv cfg (run cfg h0 evs) :=
  inv_foldl cfg evs _ (inv_initialState cfg h0)

end SocialStudy

namespace SocialStudy

set_option maxRecDepth 100000 in
/-- Claim C2, evaluated at a failing input.  Under the one minute
configuration, the natural timed run of two focus phases inserts exactly
one record per focus completion, and the first spans the configured 60
seconds; but the second spans 121 seconds, because the auto-resume
callback that runs one second after the first focus ended stamps
focusStartRef during the break (the stale closure runs the focus branch
of startPhase), so the claimed equality of endedAt minus startedAt with
the configured focus duration fails at the second record.  The final
conjunct records that reset never emits a record. -/
theorem c2_second_record_span :
    ((run cfgA [] traceTwoFocus).records =
      [{ startAt := 0, endAt := 60 }, { startAt := 61, endAt := 182 }] ∧
    60 - 0 = phaseDuration cfgA Phase.focus ∧
    182 - 61 ≠ phaseDuration cfgA Phase.focus) ∧
    ∀ s : TimerState, (reset s).records = s.records :=
  ⟨by decide, fun _ => rfl⟩

set_option maxRecDepth 100000 in
/-- Claim C3, evaluated at a failing input.  After one natural focus
completion and the auto-resume firing one second later, the reachable
state has phase short while currentFocusStartedAt is set to the
auto-resume time, because the callback captured the pre-transition
phase focus and therefore ran the focus branch of startPhase.  This
refutes the claimed iff between a set currentFocusStartedAt and being
in the focus phase. -/
theorem c3_focus_start_leak :
    (run cfgA [] traceOneFocus).phase = Phase.short ∧
    (run cfgA [] traceOneFocus).focusStart = some 61 := by decide

lemma toggle_intervalCount_cases (cfg : Config) (now : Nat) (s : TimerState) :
    (toggle cfg now s).intervalCount = s.intervalCount ∨
    ((toggle cfg now s).intervalCount = 0 ∧ s.phase = Phase.idle) := by
  unfold toggle
  split
  · exact Or.inl rfl
  · split
    · exact Or.inr ⟨rfl, by assumption⟩
    · exact Or.inl rfl
    · exact Or.inl rfl
    · exact Or.inl rfl

lemma tick_intervalCount_cases (cfg : Config) (u : Bool) (now : Nat) (s : TimerState) :
    (tick cfg u now s).intervalCount = s.intervalCount ∨
    (tick cfg u now s).intervalCount = s.intervalCount + 1 := by
  unfold tick
  split
  · split
    · rw [handlePhaseEnd_intervalCount]
      split
      · exact Or.inr rfl
      · exact Or.inl rfl
    · exact Or.inl rfl
  · exact Or.inl rfl

lemma skipCmd_intervalCount_cases (cfg : Config) (u : Bool) (now : Nat) (s : TimerState) :
    (skipCmd cfg u now s).intervalCount = s.intervalCount ∨
    (skipCmd cfg u now s).intervalCount = s.intervalCount + 1 := by
  unfold skipCmd
  split
  · rw [handlePhaseEnd_intervalCount]
    split
    · exact Or.inr rfl
    · exact Or.inl rfl
  · exact Or.inl rfl

/-- Claim C4: in every state reachable from the initial state by any
event sequence, the interval count does not decrease under any
operation other than reset; it increases by exactly one on each focus
completion, that is, a skip or an expiring tick while running in the
focus phase; and it can change from a nonzero value to zero only
through an explicit reset. -/
theorem c4_interval_count (cfg : Config) (h0 : List HistoryEntry) (evs : List Ev)
    (e : Ev) :
    (e.op ≠ Op.reset →
      (run cfg h0 evs).intervalCount ≤ (step cfg e (run cfg h0 evs)).intervalCount) ∧
    ((run cfg h0 evs).phase = Phase.focus → (run cfg h0 evs).running = true →
      (e.op = Op.skipCmd ∨ (e.op = Op.tick ∧ (run cfg h0 evs).remaining ≤ 1)) →
      (step cfg e (run cfg h0 evs)).intervalCount = (run cfg h0 evs).intervalCount + 1) ∧
    ((step cfg e (run cfg h0 evs)).intervalCount = 0 →
      (run cfg h0 evs).intervalCount ≠ 0 → e.op = Op.reset) := by
  have h1 := (inv_run cfg h0 evs).1
  set s := run cfg h0 evs with hs
  refine ⟨?_, ?_, ?_⟩
  · intro _hop
    cases e with
    | mk op now user =>
      cases op with
      | toggle =>
        simp only [step]
        rcases toggle_intervalCount_cases cfg now s with h | ⟨h, hp⟩
        · omega
        · rw [h, h1 hp]
      | reset => exact absurd rfl _hop
      | tick =>
        simp only [step]
        rcases tick_intervalCount_cases cfg user now s with h | h <;> omega
      | skipCmd =>
        simp only [step]
        rcases skipCmd_intervalCount_cases cfg user now s with h | h <;> omega
      | fire =>
        simp only [step]
        exact Nat.le_of_eq (fire_fields cfg now s).2.2.1.symm
  · intro hph hrun hcase
    cases e with
    | mk op now user =>
      rcases hcase with hsk | ⟨htk, hrem⟩
      · simp only at hsk
        subst hsk
        simp only [step]
        unfold skipCmd
        rw [if_pos hrun, handlePhaseEnd_intervalCount, if_pos hph]
      · simp only at htk
        subst htk
        simp only [step]
        unfold tick
        rw [if_pos hrun, if_pos hrem, handlePhaseEnd_intervalCount, if_pos hph]
  · intro hzero hne
    cases e with
    | mk op now user =>
      cases op with
      | toggle =>
        exfalso
        simp only [step] at hzero
        rcases toggle_intervalCount_cases cfg now s with h | ⟨_h, hp⟩
        · omega
        · exact hne (h1 hp)
      | reset => rfl
      | tick =>
        exfalso
        simp only [step] at hzero
        rcases tick_intervalCount_cases cfg user now s with h | h <;> omega
      | skipCmd =>
        exfalso
        simp only [step] at hzero
        rcases skipCmd_intervalCount_cases cfg user now s with h | h <;> omega
      | fire =>
        exfalso
        simp only [step] at hzero
        rw [(fire_fields cfg now s).2.2.1] at hzero
        exact hne hzero

theorem c4_interval_count_witness :
    (step cfgA { op := Op.skipCmd, now := 5, user := true }
        (run cfgA [] [{ op := Op.toggle, now := 0, user := true }])).intervalCount =
      (run cfgA [] [{ op := Op.toggle, now := 0, user := true }]).intervalCount + 1 :=
  (c4_interval_count cfgA [] [{ op := Op.toggle, now := 0, user := true }]
      { op := Op.skipCmd, now := 5, user := true }).2.1
    (by decide) (by decide) (Or.inl rfl)

/-- Claim C5: in every state reachable from the initial state under a
fixed configuration, remaining is at most the configured duration of
the current phase, hence at most the maximum of the three configured
durations, and remaining is zero whenever the phase is idle.  Being a
natural number it is also nonnegative. -/
theorem c5_remaining_bounds (cfg : Config) (h0 : List HistoryEntry) (evs : List Ev) :
    (run cfg h0 evs).remaining ≤ phaseDuration cfg (run cfg h0 evs).phase ∧
    (run cfg h0 evs).remaining ≤
      max (cfg.workMin * 60) (max (cfg.shortMin * 60) (cfg.longMin * 60)) ∧
    ((run cfg h0 evs).phase = Phase.idle → (run cfg h0 evs).remaining = 0) := by
  have hInv := inv_run cfg h0 evs
  obtain ⟨_h1, h2, _h3⟩ := hInv
  refine ⟨h2, le_trans h2 ?_, fun hidle => ?_⟩
  · cases hph : (run cfg h0 evs).phase
    · exact Nat.zero_le _
    · exact le_max_left _ _
    · exact le_trans (le_max_left _ _) (le_max_right _ _)
    · exact le_trans (le_max_right _ _) (le_max_right _ _)
  · rw [hidle] at h2
    simpa [phaseDuration] using h2

theorem c5_remaining_bounds_witness :
    (run cfgA [] []).remaining = 0 :=
  (c5_remaining_bounds cfgA [] []).2.2 rfl

/-- Claim C6 counterexample: in the reachable state obtained by
starting at time 10 and pausing at time 20, the machine is paused in
focus with focus start 10; resuming via toggle at time 99 overwrites
the focus start with 99, so the original focus start time is not
preserved, contrary to the claim. -/
theorem c6_resume_reset_counterexample :
    (run cfgA [] [{ op := Op.toggle, now := 10, user := true },
        { op := Op.toggle, now := 20, user := true }]).phase = Phase.focus ∧
    (run cfgA [] [{ op := Op.toggle, now := 10, user := true },
        { op := Op.toggle, now := 20, user := true }]).running = false ∧
    (run cfgA [] [{ op := Op.toggle, now := 10, user := true },
        { op := Op.toggle, now := 20, user := true }]).focusStart = some 10 ∧
    (toggle cfgA 99 (run cfgA [] [{ op := Op.toggle, now := 10, user := true },
        { op := Op.toggle, now := 20, user := true }])).focusStart = some 99 := by
  decide

/-- Claim C6 amended: calling start, that is toggle, while not running
and not idle resumes by setting running to true without changing phase
or remaining; resuming into focus RESETS currentFocusStartedAt to the
resume time (the original focus start time is not preserved), while
resuming into a break phase leaves it unchanged. -/
theorem c6_resume (cfg : Config) (now : Nat) (s : TimerState)
    (hr : s.running = false) (hp : s.phase ≠ Phase.idle) :
    (toggle cfg now s).running = true ∧
    (toggle cfg now s).phase = s.phase ∧
    (toggle cfg now s).remaining = s.remaining ∧
    (s.phase = Phase.focus → (toggle cfg now s).focusStart = some now) ∧
    (s.phase ≠ Phase.focus → (toggle cfg now s).focusStart = s.focusStart) := by
  cases s with
  | mk ph rem cnt run fs recs hist pend =>
    cases ph <;> simp_all [toggle]

theorem c6_resume_witness :
    (toggle cfgA 99 (run cfgA [] [{ op := Op.toggle, now := 10, user := true },
        { op := Op.toggle, now := 20, user := true }])).focusStart = some 99 :=
  (c6_resume cfgA 99
      (run cfgA [] [{ op := Op.toggle, now := 10, user := true },
        { op := Op.toggle, now := 20, user := true }])
      (by decide) (by decide)).2.2.2.1 (by decide)

/-- Claim C7, evaluated at a failing input.  The source todayCount
compares the leading date part of toISOString output, which is the UTC
calendar date, not the local one.  For a user at UTC offset 19800
seconds (five hours thirty minutes east), at time 85000 a history entry
ending at 60000 lies on the same UTC day, so the source counts it, but
it lies on the previous local calendar day, so the count demanded by
the claim is zero. -/
theorem c7_today_count_utc :
    todayCount 85000 [{ startAt := 0, endAt := some 60000 }] = 1 ∧
    todayCountLocal 19800 85000 [{ startAt := 0, endAt := some 60000 }] = 0 := by
  decide

/-- Claim C8: the pause command is idempotent and changes neither the
phase nor the records; the start command while already running is a
no-op; the skip command while not running is a no-op, as guarded by the
keydown handler; and the source toggle entry point decomposes exactly
into these pause and start commands. -/
theorem c8_command_idempotence :
    (∀ s : TimerState, pauseCmd (pauseCmd s) = pauseCmd s ∧
      (pauseCmd s).phase = s.phase ∧ (pauseCmd s).records = s.records) ∧
    (∀ (cfg : Config) (now : Nat) (s : TimerState), s.running = true →
      startCmd cfg now s = s) ∧
    (∀ (cfg : Config) (u : Bool) (now : Nat) (s : TimerState), s.running = false →
      skipCmd cfg u now s = s) ∧
    (∀ (cfg : Config) (now : Nat) (s : TimerState),
      toggle cfg now s = if s.running then pauseCmd s else startCmd cfg now s) := by
  refine ⟨fun s => ⟨rfl, rfl, rfl⟩, fun cfg now s h => by simp [startCmd, h],
    fun cfg u now s h => by simp [skipCmd, h], fun cfg now s => ?_⟩
  cases hr : s.running <;> simp [toggle, startCmd, pauseCmd, hr]

theorem c8_command_idempotence_witness :
    startCmd cfgA 5 (run cfgA [] [{ op := Op.toggle, now := 0, user := true }]) =
      run cfgA [] [{ op := Op.toggle, now := 0, user := true }] ∧
    skipCmd cfgA true 5 (initialState []) = initialState [] :=
  ⟨c8_command_idempotence.2.1 cfgA 5 _ (by decide),
   c8_command_idempotence.2.2.1 cfgA true 5 _ rfl⟩

/-- Claim C9: when a phase ends with no authenticated user available,
no record is inserted and the history list is not updated, yet the
phase transition itself, that is phase, remaining, interval count,
running, focus start and the scheduled callbacks, is identical to the
transition performed for an authenticated user. -/
theorem c9_unauthenticated_transition (cfg : Config) (now : Nat) (s : TimerState) :
    (handlePhaseEnd cfg false now s).records = s.records ∧
    (handlePhaseEnd cfg false now s).history = s.history ∧
    core (handlePhaseEnd cfg false now s) = core (handlePhaseEnd cfg true now s) := by
  cases s with
  | mk ph rem cnt run fs recs hist pend =>
    cases ph <;> cases fs <;> simp [handlePhaseEnd, core] <;> split <;> simp

/-- Claim C10: the Focus Today count is computed over the in-memory
history list only; in every reachable state that list has at most ten
entries, so the count is at most ten.  The trace with eleven quick
focus completions on one calendar day shows the displayed count stuck
at ten while eleven records of that day were in fact inserted, so the
count can undercount the true number. -/
theorem c10_today_count_cap :
    (∀ (cfg : Config) (h0 : List HistoryEntry) (evs : List Ev) (now : Nat),
      (run cfg h0 evs).history.length ≤ 10 ∧
      todayCount now (run cfg h0 evs).history ≤ 10) ∧
    todayCount 1 (run cfgA [] traceElevenFocus).history = 10 ∧
    completedTodayAll 1 (run cfgA [] traceElevenFocus).records = 11 := by
  refine ⟨fun cfg h0 evs now => ?_, by decide, by decide⟩
  have h3 := (inv_run cfg h0 evs).2.2
  exact ⟨h3, le_trans (List.length_filter_le _ _) h3⟩

end SocialStudy

namespace SocialStudy

lemma ticks_zero (cfg : Config) (u : Bool) (now : Nat) (s : TimerState) :
    ticks cfg u now 0 s = s := rfl

lemma ticks_succ (cfg : Config) (u : Bool) (now : Nat) (n : Nat) (s : TimerState) :
    ticks cfg u now (n + 1) s = ticks cfg u now n (tick cfg u now s) := rfl

lemma ticks_complete (cfg : Config) (u : Bool) (now : Nat) :
    ∀ (n : Nat) (s : TimerState), s.running = true → s.remaining = n + 1 →
      ticks cfg u now (n + 1) s = handlePhaseEnd cfg u now s := by
  intro n
  induction n with
  | zero =>
    intro s hr hm
    rw [ticks_succ, ticks_zero]
    unfold tick
    rw [if_pos hr, if_pos (by omega)]
  | succ n ih =>
    intro s hr hm
    rw [ticks_succ]
    have hx : tick cfg u now s = { s with remaining := s.remaining - 1 } := by
      unfold tick
      rw [if_pos hr, if_neg (by omega)]
    rw [hx]
    have h2 : ({ s with remaining := s.remaining - 1 } : TimerState).remaining = n + 1 := by
      simp
      omega
    rw [ih { s with remaining := s.remaining - 1 } hr h2,
        handlePhaseEnd_remaining_irrel]

lemma ticks_run_complete (cfg : Config) (u : Bool) (now : Nat) (s : TimerState)
    (hr : s.running = true) (hpos : 1 ≤ s.remaining) :
    ticks cfg u now s.remaining s = handlePhaseEnd cfg u now s := by
  obtain ⟨n, hn⟩ : ∃ n, s.remaining = n + 1 := ⟨s.remaining - 1, by omega⟩
  rw [hn]
  exact ticks_complete cfg u now n s hr hn

lemma hpe_focus_state (cfg : Config) (t r c : Nat) (b : Bool) (fs : Nat)
    (pend : List Phase) :
    handlePhaseEnd cfg false t
        ⟨Phase.focus, r, c, b, some fs, [], [], pend⟩ =
      ⟨if (c + 1) % cfg.intervalsBeforeLong = 0 then Phase.long else Phase.short,
       if (c + 1) % cfg.intervalsBeforeLong = 0 then cfg.longMin * 60
       else cfg.shortMin * 60,
       c + 1, false, none, [], [], pend ++ [Phase.focus]⟩ := by
  by_cases h : (c + 1) % cfg.intervalsBeforeLong = 0 <;> simp [handlePhaseEnd, h]

lemma hpe_short_state (cfg : Config) (t r c : Nat) (b : Bool) (fs : Option Nat)
    (pend : List Phase) :
    handlePhaseEnd cfg false t ⟨Phase.short, r, c, b, fs, [], [], pend⟩ =
      ⟨Phase.focus, cfg.workMin * 60, c, false, fs, [], [], pend ++ [Phase.short]⟩ := by
  simp [handlePhaseEnd]

lemma hpe_long_state (cfg : Config) (t r c : Nat) (b : Bool) (fs : Option Nat)
    (pend : List Phase) :
    handlePhaseEnd cfg false t ⟨Phase.long, r, c, b, fs, [], [], pend⟩ =
      ⟨Phase.focus, cfg.workMin * 60, c, false, fs, [], [], pend ++ [Phase.long]⟩ := by
  simp [handlePhaseEnd]

lemma nextCompletion_eq (cfg : Config) (s : TimerState)
    (h1 : (fire cfg 0 s).running = true) (h2 : 1 ≤ (fire cfg 0 s).remaining)
    (h3 : (fire cfg 0 (handlePhaseEnd cfg false 0 (fire cfg 0 s))).running = true)
    (h4 : 1 ≤ (fire cfg 0 (handlePhaseEnd cfg false 0 (fire cfg 0 s))).remaining) :
    nextCompletion cfg s =
      handlePhaseEnd cfg false 0
        (fire cfg 0 (handlePhaseEnd cfg false 0 (fire cfg 0 s))) := by
  simp only [nextCompletion]
  rw [ticks_run_complete cfg false 0 (fire cfg 0 s) h1 h2,
      ticks_run_complete cfg false 0 _ h3 h4]

lemma nextCompletion_breakState (cfg : Config) (hw : 1 ≤ cfg.workMin)
    (hs : 1 ≤ cfg.shortMin) (hl : 1 ≤ cfg.longMin) (j : Nat) :
    nextCompletion cfg (breakState cfg j) = breakState cfg (j + 1) := by
  by_cases hj : j % cfg.intervalsBeforeLong = 0
  · have hb : breakState cfg j =
        ⟨Phase.long, cfg.longMin * 60, j, false, none, [], [], [Phase.focus]⟩ := by
      simp [breakState, hj]
    rw [hb, nextCompletion_eq cfg
        (⟨Phase.long, cfg.longMin * 60, j, false, none, [], [], [Phase.focus]⟩ :
          TimerState) rfl
        (by show 1 ≤ cfg.longMin * 60; omega) rfl
        (by show 1 ≤ cfg.workMin * 60; omega)]
    have e1 : fire cfg 0
        (⟨Phase.long, cfg.longMin * 60, j, false, none, [], [], [Phase.focus]⟩ :
          TimerState) =
        ⟨Phase.long, cfg.longMin * 60, j, true, some 0, [], [], []⟩ := rfl
    rw [e1, hpe_long_state]
    simp only [List.nil_append]
    have e2 : fire cfg 0
        (⟨Phase.focus, cfg.workMin * 60, j, false, some 0, [], [], [Phase.long]⟩ :
          TimerState) =
        ⟨Phase.focus, cfg.workMin * 60, j, true, some 0, [], [], []⟩ := rfl
    rw [e2, hpe_focus_state]
    simp [breakState]
  · have hb : breakState cfg j =
        ⟨Phase.short, cfg.shortMin * 60, j, false, none, [], [], [Phase.focus]⟩ := by
      simp [breakState, hj]
    rw [hb, nextCompletion_eq cfg
        (⟨Phase.short, cfg.shortMin * 60, j, false, none, [], [], [Phase.focus]⟩ :
          TimerState) rfl
        (by show 1 ≤ cfg.shortMin * 60; omega) rfl
        (by show 1 ≤ cfg.workMin * 60; omega)]
    have e1 : fire cfg 0
        (⟨Phase.short, cfg.shortMin * 60, j, false, none, [], [], [Phase.focus]⟩ :
          TimerState) =
        ⟨Phase.short, cfg.shortMin * 60, j, true, some 0, [], [], []⟩ := rfl
    rw [e1, hpe_short_state]
    simp only [List.nil_append]
    have e2 : fire cfg 0
        (⟨Phase.focus, cfg.workMin * 60, j, false, some 0, [], [], [Phase.short]⟩ :
          TimerState) =
        ⟨Phase.focus, cfg.workMin * 60, j, true, some 0, [], [], []⟩ := rfl
    rw [e2, hpe_focus_state]
    simp [breakState]

lemma completionState_eq (cfg : Config) (hw : 1 ≤ cfg.workMin)
    (hs : 1 ≤ cfg.shortMin) (hl : 1 ≤ cfg.longMin) :
    ∀ k : Nat, completionState cfg k = breakState cfg (k + 1) := by
  intro k
  induction k with
  | zero =>
    simp only [completionState]
    have e0 : toggle cfg 0 (initialState []) =
        ⟨Phase.focus, cfg.workMin * 60, 0, true, some 0, [], [], []⟩ := rfl
    rw [e0, ticks_run_complete cfg false 0 _ rfl (by show 1 ≤ cfg.workMin * 60; omega),
        hpe_focus_state]
    simp [breakState]
  | succ k ih =>
    rw [completionState, ih]
    exact nextCompletion_breakState cfg hw hs hl (k + 1)

end SocialStudy

namespace SocialStudy

/-- Claim C1: with every duration positive and intervalsBeforeLong at
least one, starting from idle and letting remaining reach zero for N
focus cycles, with the auto-resume callback firing between phases,
produces the break phases short, short and so on, ending with exactly
one long break after the N-th focus completion.  Moreover after the
k plus first focus completion the interval count is k plus one, the
phase is long exactly when k plus one is divisible by
intervalsBeforeLong, and remaining equals the configured duration of
that phase. -/
theorem c1_phase_cycle (cfg : Config) (hw : 1 ≤ cfg.workMin) (hs : 1 ≤ cfg.shortMin)
    (hl : 1 ≤ cfg.longMin) (hn : 1 ≤ cfg.intervalsBeforeLong) :
    ((List.range cfg.intervalsBeforeLong).map
        (fun k => (completionState cfg k).phase)) =
      List.replicate (cfg.intervalsBeforeLong - 1) Phase.short ++ [Phase.long] ∧
    (∀ k : Nat, (completionState cfg k).intervalCount = k + 1 ∧
      (completionState cfg k).phase =
        (if (k + 1) % cfg.intervalsBeforeLong = 0 then Phase.long
         else Phase.short) ∧
      (completionState cfg k).remaining =
        phaseDuration cfg (completionState cfg k).phase) := by
  have hkey := completionState_eq cfg hw hs hl
  constructor
  · obtain ⟨m, hm⟩ : ∃ m, cfg.intervalsBeforeLong = m + 1 :=
      ⟨cfg.intervalsBeforeLong - 1, by omega⟩
    rw [hm, List.range_succ, List.map_append, List.map_cons, List.map_nil]
    have hlast : (completionState cfg m).phase = Phase.long := by
      rw [hkey m]
      simp [breakState, hm, Nat.mod_self]
    have hrest : (List.range m).map (fun k => (completionState cfg k).phase) =
        List.replicate m Phase.short := by
      apply List.eq_replicate_iff.mpr
      refine ⟨by simp, ?_⟩
      intro b hb
      simp only [List.mem_map, List.mem_range] at hb
      obtain ⟨k, hk, rfl⟩ := hb
      rw [hkey k]
      have hmod : (k + 1) % cfg.intervalsBeforeLong = k + 1 :=
        Nat.mod_eq_of_lt (by omega)
      simp [breakState, hmod]
    rw [hrest, hlast]
    simp
  · intro k
    rw [hkey k]
    refine ⟨rfl, rfl, ?_⟩
    by_cases h : (k + 1) % cfg.intervalsBeforeLong = 0 <;>
      simp [breakState, h, phaseDuration]

theorem c1_phase_cycle_witness :
    ((List.range cfgB.intervalsBeforeLong).map
        (fun k => (completionState cfgB k).phase)) =
      List.replicate (cfgB.intervalsBeforeLong - 1) Phase.short ++ [Phase.long] :=
  (c1_phase_cycle cfgB (by decide) (by decide) (by decide) (by decide)).1

end SocialStudy
